import Mathlib

/-!
# nogoegst/padding: keyed random padding lengths, Pad / Unpad

A shallow embedding of `padding.go` and of the library functions it calls,
followed by the properties of the package that have been settled.

Modelling conventions.

* A Go `[]byte` is a `List Byte`, a byte is a `Fin 256`; the nil slice is `[]`.
* A Go `int` is an `Int` in the range of 64 bits; the package only compiles
  where `int` has 64 bits (`i < math.MaxUint32` is a constant overflow
  otherwise).  The sum `padlen+len(pt)` wraps modulo `2^64` (`golang.addInt`),
  and the conversions written in the code (`uint32(maxlen)`, `int32(x)`,
  `byte(v)`) are modelled bit for bit by an explicit reduction modulo `2^w`.
* A run-time panic is the constructor `Outcome.panic`; a normal return is
  `Outcome.ret`.  A Go result pair `([]byte, error)` is a pair of a list and
  an `Option String` (`none` is the nil error).
* `make` panics for a negative length and for a length above the limit
  `maxAlloc = 2^48` of the runtime on 64-bit platforms; up to that limit the
  memory is taken to be available.
* `crypto/subtle`, `encoding/binary` and the builtins are embedded from the Go
  library; BLAKE2b is embedded from its specification, RFC 7693.
* `subtle.ConstantTimeLessOrEq` differs between toolchains, so the functions
  that call it take the toolchain as their first argument
  (`golang.Toolchain`).
-/

set_option maxRecDepth 100000

/-- A byte. -/
abbrev Byte := Fin 256

/-- The outcome of a Go call: it returns a value or it panics. -/
inductive Outcome (α : Type) where
  | ret (v : α) : Outcome α
  | panic (msg : String) : Outcome α
deriving DecidableEq

/-- Sequencing of calls: a panic propagates. -/
def Outcome.andThen {α β : Type} (o : Outcome α) (f : α → Outcome β) : Outcome β :=
  match o with
  | .ret v => f v
  | .panic m => .panic m

/-- The call returned (it did not panic). -/
def Outcome.returns {α : Type} (o : Outcome α) : Bool :=
  match o with
  | .ret _ => true
  | .panic _ => false

/-- The call panicked. -/
def Outcome.aborts {α : Type} (o : Outcome α) : Bool :=
  match o with
  | .ret _ => false
  | .panic _ => true

namespace golang

/-- The Go toolchains, as far as they give `crypto/subtle.ConstantTimeLessOrEq`
a different body: `upTo125` is Go 1.25 and every earlier release, `after125`
is every later release, go1.27.1 among them. -/
inductive Toolchain where
  | upTo125 : Toolchain
  | after125 : Toolchain
deriving DecidableEq

/-- The value of an `int` after overflow: the low 64 bits, read as a signed
two's complement number. -/
def int64 (x : Int) : Int :=
  let u := x % 18446744073709551616
  if u < 9223372036854775808 then u else u - 18446744073709551616

/-- The operator `a + b` on `int`, wrapping modulo `2^64`. -/
def addInt (a b : Int) : Int := int64 (a + b)

/-- The largest size `makeslice` accepts: `maxAlloc = 1 << 48` bytes, the
constant of the runtime on 64-bit platforms with 48 heap address bits. -/
def maxAlloc : Int := 281474976710656

/-- The conversion `byte(v)` of an `int`: the low eight bits. -/
def byte (v : Int) : Byte := Fin.ofNat (v % 256).toNat

/-- The conversion `int32(x)` of an `int`: the low 32 bits, read as a signed
two's complement number. -/
def int32 (x : Int) : Int :=
  let u := x % 4294967296
  if u < 2147483648 then u else u - 4294967296

/-- The operator `a & b` on `int32` values: the bitwise and of the two's
complement bit patterns, read back as a signed number. -/
def andInt32 (a b : Int) : Int :=
  int32 (((a % 4294967296).toNat &&& (b % 4294967296).toNat : Nat) : Int)

/-- The conversion `uint32(x)` of an `int`: the low 32 bits. -/
def uint32 (x : Int) : Nat := (x % 4294967296).toNat

/-- Subtraction of `uint32` values, wrapping modulo `2^32`. -/
def subUint32 (a b : Nat) : Nat := (a + 4294967296 - b % 4294967296) % 4294967296

/-- The builtin `make([]byte, n)`: a slice of `n` zero bytes; `makeslice`
panics when `n` is negative or above `maxAlloc`. -/
def make (n : Int) : Outcome (List Byte) :=
  if n < 0 ∨ maxAlloc < n then .panic "runtime error: makeslice: len out of range"
  else .ret (List.replicate n.toNat 0)

/-- The slice expression `s[lo:]`: the elements from offset `lo` on; it panics
unless `0 ≤ lo ≤ len(s)`. -/
def sliceFrom (s : List Byte) (lo : Int) : Outcome (List Byte) :=
  if lo < 0 ∨ (s.length : Int) < lo then .panic "runtime error: slice bounds out of range"
  else .ret (s.drop lo.toNat)

/-- The slice expression `s[:hi]`: the first `hi` elements; it panics
unless `0 ≤ hi ≤ len(s)` (the slices it is used on have `cap = len`). -/
def sliceTo (s : List Byte) (hi : Int) : Outcome (List Byte) :=
  if hi < 0 ∨ (s.length : Int) < hi then .panic "runtime error: slice bounds out of range"
  else .ret (s.take hi.toNat)

end golang

namespace subtle

/-- Go `crypto/subtle.ConstantTimeCopy(v, x, y)`: it panics when the two slices
differ in length, and otherwise overwrites every `x[i]` with
`x[i]&xmask | y[i]&ymask` where `xmask = byte(v-1)` and `ymask = byte(^(v-1))`.
The value returned here is the content of `x` after the call. -/
def ConstantTimeCopy (v : Int) (x y : List Byte) : Outcome (List Byte) :=
  if x.length ≠ y.length then .panic "subtle: slices have different lengths"
  else
    let xmask := golang.byte (v - 1)
    let ymask := golang.byte (-(v - 1) - 1)
    .ret (List.zipWith (fun xi yi => (xi &&& xmask) ||| (yi &&& ymask)) x y)

/-- Go `crypto/subtle.ConstantTimeLessOrEq(x, y)`, documented as "returns 1 if
x <= y and 0 otherwise".  Up to Go 1.25 its body is
`x32 := int32(x); y32 := int32(y); return int(((x32 - y32 - 1) >> 31) & 1)`,
and the documentation leaves the result undefined outside `[0, 2^31 - 1]`.
Later toolchains compare the two `int` on their full width; that body is
embedded by its documented result. -/
def ConstantTimeLessOrEq (tc : golang.Toolchain) (x y : Int) : Int :=
  match tc with
  | .upTo125 =>
    let x32 := golang.int32 x
    let y32 := golang.int32 y
    golang.andInt32 (golang.int32 (x32 - y32 - 1) >>> (31 : Nat)) 1
  | .after125 => if x ≤ y then 1 else 0

end subtle

namespace blake2b

/-!
BLAKE2b-256 in keyed mode, the function computed by
`blake2b.New256(key)`, `Write` and `Sum` (RFC 7693).
-/

/-- The initialisation vector of BLAKE2b. -/
def iv : List Nat :=
  [0x6a09e667f3bcc908, 0xbb67ae8584caa73b, 0x3c6ef372fe94f82b, 0xa54ff53a5f1d36f1,
   0x510e527fade682d1, 0x9b05688c2b3e6c1f, 0x1f83d9abfb41bd6b, 0x5be0cd19137e2179]

/-- The message word schedule of the twelve rounds. -/
def precomputed : List (List Nat) :=
  [[0, 1, 2, 3, 4, 5, 6, 7, 8, 9, 10, 11, 12, 13, 14, 15],
   [14, 10, 4, 8, 9, 15, 13, 6, 1, 12, 0, 2, 11, 7, 5, 3],
   [11, 8, 12, 0, 5, 2, 15, 13, 10, 14, 3, 6, 7, 1, 9, 4],
   [7, 9, 3, 1, 13, 12, 11, 14, 2, 6, 5, 10, 4, 0, 15, 8],
   [9, 0, 5, 7, 2, 4, 10, 15, 14, 1, 11, 12, 6, 8, 3, 13],
   [2, 12, 6, 10, 0, 11, 8, 3, 4, 13, 7, 5, 15, 14, 1, 9],
   [12, 5, 1, 15, 14, 13, 4, 10, 0, 7, 6, 3, 9, 2, 8, 11],
   [13, 11, 7, 14, 12, 1, 3, 9, 5, 0, 15, 4, 8, 6, 2, 10],
   [6, 15, 14, 9, 11, 3, 0, 8, 12, 2, 13, 7, 1, 4, 10, 5],
   [10, 2, 8, 4, 7, 6, 1, 5, 15, 11, 9, 14, 3, 12, 13, 0],
   [0, 1, 2, 3, 4, 5, 6, 7, 8, 9, 10, 11, 12, 13, 14, 15],
   [14, 10, 4, 8, 9, 15, 13, 6, 1, 12, 0, 2, 11, 7, 5, 3]]

/-- Addition of 64-bit words, wrapping modulo `2^64`. -/
def add64 (a b : Nat) : Nat := (a + b) % 18446744073709551616

/-- Rotation of a 64-bit word to the right by `k` bits (`bits.RotateLeft64(x, -k)`). -/
def rotr64 (x k : Nat) : Nat := ((x >>> k) ||| (x <<< (64 - k))) % 18446744073709551616

/-- The mixing function `G` of BLAKE2b applied to the entries `a b c d` of the
work vector with the message words `x` and `y`. -/
def mix (v : List Nat) (a b c d x y : Nat) : List Nat :=
  let va := add64 (add64 (v.getD a 0) (v.getD b 0)) x
  let vd := rotr64 (v.getD d 0 ^^^ va) 32
  let vc := add64 (v.getD c 0) vd
  let vb := rotr64 (v.getD b 0 ^^^ vc) 24
  let va := add64 (add64 va vb) y
  let vd := rotr64 (vd ^^^ va) 16
  let vc := add64 vc vd
  let vb := rotr64 (vb ^^^ vc) 63
  (((v.set a va).set b vb).set c vc).set d vd

/-- One round: `G` on the four columns, then on the four diagonals, with the
message words selected by the schedule row `s`. -/
def round (m : List Nat) (v : List Nat) (s : List Nat) : List Nat :=
  let w (i : Nat) : Nat := m.getD (s.getD i 0) 0
  let v := mix v 0 4 8 12 (w 0) (w 1)
  let v := mix v 1 5 9 13 (w 2) (w 3)
  let v := mix v 2 6 10 14 (w 4) (w 5)
  let v := mix v 3 7 11 15 (w 6) (w 7)
  let v := mix v 0 5 10 15 (w 8) (w 9)
  let v := mix v 1 6 11 12 (w 10) (w 11)
  let v := mix v 2 7 8 13 (w 12) (w 13)
  mix v 3 4 9 14 (w 14) (w 15)

/-- Read of a little-endian 64-bit word (`binary.LittleEndian.Uint64`). -/
def le64 (b : List Byte) : Nat :=
  (b.take 8).foldr (fun x acc => x.val + 256 * acc) 0

/-- The first `n` little-endian 64-bit words of a block. -/
def words : Nat → List Byte → List Nat
  | 0, _ => []
  | n + 1, b => le64 b :: words n (b.drop 8)

/-- The eight bytes of a 64-bit word, little-endian (`binary.LittleEndian.PutUint64`). -/
def bytes64 (w : Nat) : List Byte :=
  (List.range 8).map fun i => Fin.ofNat ((w >>> (8 * i)) % 256)

/-- The compression function: `h` is the chaining value, `block` one block of at
most 128 bytes (zero padded), `t` the number of input bytes hashed so far,
`final` tells the last block (the flag `0xFFFFFFFFFFFFFFFF` of `hashBlocks`). -/
def compress (h : List Nat) (block : List Byte) (t : Nat) (final : Bool) : List Nat :=
  let m := words 16 (block ++ List.replicate (128 - block.length) 0)
  let v := h ++ iv
  let v := v.set 12 (v.getD 12 0 ^^^ (t % 18446744073709551616))
  let v := v.set 13 (v.getD 13 0 ^^^ ((t / 18446744073709551616) % 18446744073709551616))
  let v := if final then v.set 14 (v.getD 14 0 ^^^ 0xFFFFFFFFFFFFFFFF) else v
  let v := precomputed.foldl (round m) v
  (List.range 8).map fun i => h.getD i 0 ^^^ v.getD i 0 ^^^ v.getD (i + 8) 0

/-- Hashing of the buffered input block by block; the last block, also when it
is full or empty, is compressed with the final flag.  The first argument bounds
the number of blocks; `data.length` is always enough. -/
def absorb : Nat → List Nat → Nat → List Byte → List Nat
  | 0, h, t, data => compress h data (t + data.length) true
  | fuel + 1, h, t, data =>
    if data.length ≤ 128 then compress h data (t + data.length) true
    else absorb fuel (compress h (data.take 128) (t + 128) false) (t + 128) (data.drop 128)

/-- The 32-byte BLAKE2b digest of `data` under `key` (RFC 7693): the parameter
word `size | keyLen<<8 | 1<<16 | 1<<24` is folded into `iv[0]`, and a
non-empty key is hashed first as one zero-padded block. -/
def sum256 (key data : List Byte) : List Byte :=
  let h0 := iv.set 0 (iv.getD 0 0 ^^^ (32 ||| (key.length <<< 8) ||| (1 <<< 16) ||| (1 <<< 24)))
  let input := if key.length > 0 then key ++ List.replicate (128 - key.length) 0 ++ data else data
  ((absorb input.length h0 0 input).flatMap bytes64).take 32


/-- The hash object of `golang.org/x/crypto/blake2b`: the key it was made with
and the bytes written so far. -/
structure digest where
  key : List Byte
  written : List Byte

/-- Go `blake2b.New256(key)`: an error for a key longer than `Size = 64` bytes,
otherwise a fresh hash. -/
def New256 (key : List Byte) : Except String digest :=
  if key.length > 64 then .error "blake2b: invalid key size"
  else .ok { key := key, written := [] }

/-- Go `h.Write(p)`: the bytes are appended to the input. -/
def digest.Write (d : digest) (p : List Byte) : digest :=
  { d with written := d.written ++ p }

/-- Go `h.Sum(b)`: the digest of the input so far, appended to `b`. -/
def digest.Sum (d : digest) (b : List Byte) : List Byte :=
  b ++ sum256 d.key d.written

end blake2b

namespace binary

/-- Go `binary.BigEndian.Uint32(b)`: it panics when `b` has fewer than four
bytes (the bounds check `_ = b[3]`) and otherwise returns
`uint32(b[3]) | uint32(b[2])<<8 | uint32(b[1])<<16 | uint32(b[0])<<24`. -/
def BigEndian.Uint32 (b : List Byte) : Outcome Nat :=
  match b with
  | b0 :: b1 :: b2 :: b3 :: _ =>
    .ret (b3.val ||| (b2.val <<< 8) ||| (b1.val <<< 16) ||| (b0.val <<< 24))
  | _ => .panic "runtime error: index out of range"

/-- Go `binary.BigEndian.PutUint32(b, v)`: it panics when `b` has fewer than
four bytes and otherwise sets `b[0] = byte(v >> 24)`, `b[1] = byte(v >> 16)`,
`b[2] = byte(v >> 8)`, `b[3] = byte(v)`.  The value returned here is the
content of `b` after the call. -/
def BigEndian.PutUint32 (b : List Byte) (v : Nat) : Outcome (List Byte) :=
  if b.length < 4 then .panic "runtime error: index out of range"
  else .ret ([golang.byte (v >>> 24 : Nat), golang.byte (v >>> 16 : Nat),
              golang.byte (v >>> 8 : Nat), golang.byte (v : Nat)] ++ b.drop 4)

end binary

namespace padding

/-- Go `Pad`: `paddedpt := make([]byte, padlen+len(pt))`, then
`subtle.ConstantTimeCopy(1, paddedpt[padlen:], pt)`, then `return paddedpt`.
The copy writes through the slice `paddedpt[padlen:]` into `paddedpt`, so the
returned buffer is its first `padlen` bytes followed by the copied bytes. -/
def Pad (pt : List Byte) (padlen : Int) : Outcome (List Byte) :=
  (golang.make (golang.addInt padlen pt.length)).andThen fun paddedpt =>
  (golang.sliceFrom paddedpt padlen).andThen fun dst =>
  (subtle.ConstantTimeCopy 1 dst pt).andThen fun dst1 =>
  .ret (paddedpt.take padlen.toNat ++ dst1)

/-- Go `Unpad`: when `subtle.ConstantTimeLessOrEq(padlen, len(paddedpt)) == 0`
it returns `(nil, errors.New("plaintext is shorter than padding"))`, otherwise
`(paddedpt[padlen:], nil)`.  The first argument is the toolchain, which fixes
the body of the comparison. -/
def Unpad (tc : golang.Toolchain) (paddedpt : List Byte) (padlen : Int) :
    Outcome (List Byte × Option String) :=
  if subtle.ConstantTimeLessOrEq tc padlen paddedpt.length = 0 then
    .ret ([], some "plaintext is shorter than padding")
  else
    (golang.sliceFrom paddedpt padlen).andThen fun pt =>
    .ret (pt, none)

/-- Go `isUint32`: `i >= 0 && i < math.MaxUint32`, with `math.MaxUint32 = 2^32 - 1`. -/
def isUint32 (i : Int) : Bool :=
  if i ≥ 0 ∧ i < 4294967295 then true else false

/-- Go `Length`: the two range checks panic; then the first four bytes of the
keyed BLAKE2b-256 digest of `nonce`, read big-endian, are masked with
`max - 1` (computed on `uint32`). -/
def Length (maxlen : Int) (nonce key : List Byte) : Outcome Int :=
  if !isUint32 maxlen then .panic "maxlen is out of range"
  else
    let max := golang.uint32 maxlen
    if max &&& golang.subUint32 max 1 ≠ 0 then .panic "max padding length is not power of two"
    else
      match blake2b.New256 key with
      | .error err => .panic err
      | .ok h =>
        let h := h.Write nonce
        let d := h.Sum []
        (golang.sliceTo d 4).andThen fun d4 =>
        (binary.BigEndian.Uint32 d4).andThen fun r =>
        let padlen := r &&& golang.subUint32 max 1
        .ret (padlen : Int)

/-- Go `IntToBinary`: it panics unless `isUint32(i)`, and otherwise returns the
four bytes written by `binary.BigEndian.PutUint32(bini, uint32(i))` into
`bini := make([]byte, 4)`. -/
def IntToBinary (i : Int) : Outcome (List Byte) :=
  if !isUint32 i then .panic "integer is out of range"
  else
    (golang.make 4).andThen fun bini =>
    binary.BigEndian.PutUint32 bini (golang.uint32 i)

end padding

/-! ## Library facts -/

theorem Outcome.andThen_ret {α β : Type} (v : α) (f : α → Outcome β) :
    (Outcome.ret v).andThen f = f v := rfl

theorem golang.byte_zero : golang.byte 0 = 0 := by decide

theorem golang.byte_neg_one : golang.byte (-1) = 255 := by decide

theorem golang.make_ok (n : Int) (h : 0 ≤ n) (hl : n ≤ golang.maxAlloc) :
    golang.make n = .ret (List.replicate n.toNat 0) := by
  unfold golang.make
  rw [if_neg (by omega)]

theorem golang.make_panic (n : Int) (h : n < 0 ∨ golang.maxAlloc < n) :
    golang.make n = .panic "runtime error: makeslice: len out of range" := by
  unfold golang.make
  rw [if_pos h]

theorem golang.int64_of_small (x : Int) (h0 : -9223372036854775808 ≤ x)
    (h1 : x < 9223372036854775808) : golang.int64 x = x := by
  unfold golang.int64
  simp only
  split <;> omega

theorem golang.int64_bounds (x : Int) :
    -9223372036854775808 ≤ golang.int64 x ∧ golang.int64 x < 9223372036854775808 := by
  unfold golang.int64
  simp only
  split <;> omega

theorem golang.sliceFrom_ok (s : List Byte) (lo : Int) (h0 : 0 ≤ lo) (h1 : lo ≤ s.length) :
    golang.sliceFrom s lo = .ret (s.drop lo.toNat) := by
  unfold golang.sliceFrom
  rw [if_neg (by omega)]

theorem golang.sliceFrom_panic (s : List Byte) (lo : Int) (h : lo < 0 ∨ (s.length : Int) < lo) :
    golang.sliceFrom s lo = .panic "runtime error: slice bounds out of range" := by
  unfold golang.sliceFrom
  rw [if_pos h]

theorem subtle.mask_select (xi yi : Byte) : (xi &&& 0) ||| (yi &&& 255) = yi := by
  have h1 : ∀ x : Byte, x &&& 0 = 0 := by decide
  have h2 : ∀ y : Byte, (0 : Byte) ||| (y &&& 255) = y := by decide
  rw [h1, h2]

theorem subtle.zipWith_select (f : Byte → Byte → Byte) (hf : ∀ a b, f a b = b)
    (x y : List Byte) (h : x.length = y.length) : List.zipWith f x y = y := by
  induction x generalizing y with
  | nil =>
    cases y with
    | nil => rfl
    | cons b t => simp at h
  | cons a s ih =>
    cases y with
    | nil => simp at h
    | cons b t =>
      rw [List.zipWith_cons_cons, hf, ih t (by simpa using h)]

/-- With `v = 1` the constant-time copy of two slices of equal length leaves
the source bytes in the destination. -/
theorem subtle.ConstantTimeCopy_one (x y : List Byte) (h : x.length = y.length) :
    subtle.ConstantTimeCopy 1 x y = .ret y := by
  unfold subtle.ConstantTimeCopy
  rw [if_neg (by simpa using h)]
  have e1 : ((1 : Int) - 1) = 0 := by norm_num
  simp only [e1, neg_zero, zero_sub, golang.byte_zero, golang.byte_neg_one]
  rw [subtle.zipWith_select _ subtle.mask_select x y h]

/-! ## Pad -/

theorem golang.maxAlloc_eq : golang.maxAlloc = 281474976710656 := rfl

/-- Within the allocation limit the sum `padlen+len(pt)` does not wrap. -/
theorem golang.addInt_of_small (a b : Int) (h0 : 0 ≤ a + b) (h1 : a + b ≤ golang.maxAlloc) :
    golang.addInt a b = a + b := by
  have hm := golang.maxAlloc_eq
  unfold golang.addInt
  exact golang.int64_of_small _ (by omega) (by omega)

/-- For a non-negative padding length and a total length within the allocation
limit, `Pad` returns `padlen` zero bytes followed by the plaintext. -/
theorem padding.Pad_eq (pt : List Byte) (padlen : Int) (h : 0 ≤ padlen)
    (hl : padlen + pt.length ≤ golang.maxAlloc) :
    padding.Pad pt padlen = .ret (List.replicate padlen.toNat 0 ++ pt) := by
  have hn : (padlen + (pt.length : Int)).toNat = padlen.toNat + pt.length := by omega
  have hdrop : List.drop padlen.toNat (List.replicate (padlen.toNat + pt.length) (0 : Byte))
      = List.replicate pt.length 0 := by
    rw [List.drop_replicate]; congr 1; omega
  have htake : List.take padlen.toNat (List.replicate (padlen.toNat + pt.length) (0 : Byte))
      = List.replicate padlen.toNat 0 := by
    rw [List.take_replicate]; congr 1; omega
  unfold padding.Pad
  rw [golang.addInt_of_small _ _ (by omega) hl, golang.make_ok _ (by omega) hl,
    Outcome.andThen_ret, hn,
    golang.sliceFrom_ok _ _ h (by rw [List.length_replicate]; omega), Outcome.andThen_ret,
    hdrop, subtle.ConstantTimeCopy_one _ _ (by rw [List.length_replicate]),
    Outcome.andThen_ret, htake]

/-- For a non-negative padding length and a total length above the allocation
limit, `Pad` panics in `make`, whether or not the sum wraps. -/
theorem padding.Pad_panic_of_large (pt : List Byte) (padlen : Int) (h : 0 ≤ padlen)
    (hi : padlen < 9223372036854775808) (hpt : (pt.length : Int) ≤ golang.maxAlloc)
    (hl : golang.maxAlloc < padlen + pt.length) :
    padding.Pad pt padlen = .panic "runtime error: makeslice: len out of range" := by
  have hm := golang.maxAlloc_eq
  have hb : golang.addInt padlen pt.length < 0 ∨
      golang.maxAlloc < golang.addInt padlen pt.length := by
    unfold golang.addInt golang.int64
    simp only
    split <;> omega
  unfold padding.Pad
  rw [golang.make_panic _ hb]
  rfl

/-- A negative padding length makes `Pad` panic. -/
theorem padding.Pad_neg (pt : List Byte) (padlen : Int) (h : padlen < 0) :
    (padding.Pad pt padlen).aborts = true := by
  unfold padding.Pad golang.make
  by_cases hn : golang.addInt padlen pt.length < 0 ∨
      golang.maxAlloc < golang.addInt padlen pt.length
  · rw [if_pos hn]; rfl
  · rw [if_neg hn, Outcome.andThen_ret, golang.sliceFrom_panic _ _ (Or.inl h)]; rfl

/-- C4 (as stated). Pad length for every `padlen ≥ 0`: it fails for
`pt = [7]` and `padlen = 2^63 - 1`, where `padlen+len(pt)` wraps to `-2^63` and
`make` panics, so that there is no buffer whose length could be
`padlen + len(pt)`. -/
theorem padding.Pad_length_fails_at_max_int :
    (0 : Int) ≤ 9223372036854775807 ∧
    padding.Pad [7] 9223372036854775807
      = .panic "runtime error: makeslice: len out of range" ∧
    ¬ ∃ paddedpt, padding.Pad [7] 9223372036854775807 = .ret paddedpt ∧
      (paddedpt.length : Int) = 9223372036854775807 + ([7] : List Byte).length := by
  have hp : padding.Pad [7] 9223372036854775807
      = .panic "runtime error: makeslice: len out of range" := by decide
  refine ⟨by decide, hp, ?_⟩
  rintro ⟨p, h, _⟩
  rw [hp] at h
  cases h

/-- C4 (amended). Pad length: for every byte sequence `pt` and every
`padlen ≥ 0` with `padlen + len(pt)` within the allocation limit `2^48`,
`Pad(pt, padlen)` returns a buffer of length `padlen + len(pt)`. -/
theorem padding.Pad_length (pt : List Byte) (padlen : Int) (h : 0 ≤ padlen)
    (hl : padlen + pt.length ≤ golang.maxAlloc) :
    ∃ paddedpt, padding.Pad pt padlen = .ret paddedpt ∧
      (paddedpt.length : Int) = padlen + pt.length := by
  refine ⟨_, padding.Pad_eq pt padlen h hl, ?_⟩
  rw [List.length_append, List.length_replicate]
  omega

theorem padding.Pad_length_witness :
    ∃ paddedpt, padding.Pad [7, 8, 9] 2 = .ret paddedpt ∧
      (paddedpt.length : Int) = 2 + ([7, 8, 9] : List Byte).length :=
  padding.Pad_length [7, 8, 9] 2 (by decide) (by decide)

/-- C5 (as stated). Pad content for every `padlen ≥ 0`: it fails for
`pt = [7, 8, 9]` and `padlen = 2^63 - 3`, where `padlen+len(pt)` wraps to
`-2^63` and `make` panics, so that no bytes are returned. -/
theorem padding.Pad_content_fails_at_wrap :
    (0 : Int) ≤ 9223372036854775805 ∧
    padding.Pad [7, 8, 9] 9223372036854775805
      = .panic "runtime error: makeslice: len out of range" ∧
    ¬ ∃ paddedpt, padding.Pad [7, 8, 9] 9223372036854775805 = .ret paddedpt ∧
      paddedpt = List.replicate (9223372036854775805 : Int).toNat 0 ++ [7, 8, 9] := by
  have hp : padding.Pad [7, 8, 9] 9223372036854775805
      = .panic "runtime error: makeslice: len out of range" := by decide
  refine ⟨by decide, hp, ?_⟩
  rintro ⟨p, h, _⟩
  rw [hp] at h
  cases h

/-- C5 (amended). Pad content: for every byte sequence `pt` and every
`padlen ≥ 0` with `padlen + len(pt)` within the allocation limit `2^48`,
`Pad(pt, padlen)` returns `padlen` zero bytes followed by `pt`: byte `j` of the
result is `0` for every `j < padlen`, and byte `padlen + j` is `pt[j]` for
every `j < len(pt)`. -/
theorem padding.Pad_content (pt : List Byte) (padlen : Int) (h : 0 ≤ padlen)
    (hl : padlen + pt.length ≤ golang.maxAlloc) :
    ∃ paddedpt, padding.Pad pt padlen = .ret paddedpt ∧
      paddedpt = List.replicate padlen.toNat 0 ++ pt ∧
      (∀ j : Nat, (j : Int) < padlen → paddedpt[j]? = some 0) ∧
      (∀ j : Nat, j < pt.length → paddedpt[padlen.toNat + j]? = pt[j]?) := by
  refine ⟨_, padding.Pad_eq pt padlen h hl, rfl, ?_, ?_⟩
  · intro j hj
    have hj1 : j < padlen.toNat := by omega
    rw [List.getElem?_append_left (by rw [List.length_replicate]; exact hj1)]
    rw [List.getElem?_replicate, if_pos hj1]
  · intro j _
    rw [List.getElem?_append_right (by rw [List.length_replicate]; omega)]
    rw [List.length_replicate]
    congr 1
    omega

theorem padding.Pad_content_witness :
    ∃ paddedpt, padding.Pad [7, 8, 9] 2 = .ret paddedpt ∧
      paddedpt = List.replicate (2 : Int).toNat 0 ++ [7, 8, 9] ∧
      (∀ j : Nat, (j : Int) < 2 → paddedpt[j]? = some 0) ∧
      (∀ j : Nat, j < ([7, 8, 9] : List Byte).length →
        paddedpt[(2 : Int).toNat + j]? = ([7, 8, 9] : List Byte)[j]?) :=
  padding.Pad_content [7, 8, 9] 2 (by decide) (by decide)

/-! ## Pad: success and composition -/

/-- C11 (as stated). Pad never aborts for `padlen ≥ 0`: it fails for the empty
plaintext and `padlen = 2^48 + 1`, one above the allocation limit, where `make`
panics. -/
theorem padding.Pad_aborts_above_limit :
    (0 : Int) ≤ 281474976710657 ∧
    padding.Pad [] 281474976710657 = .panic "runtime error: makeslice: len out of range" ∧
    (padding.Pad [] 281474976710657).returns = false := by
  refine ⟨by decide, by decide, by decide⟩

/-- C11 (amended). Pad succeeds within the allocation limit: for every byte
sequence `pt` and every `padlen ≥ 0` with `padlen + len(pt) ≤ 2^48`,
`Pad(pt, padlen)` returns a result without panicking; the destination
`paddedpt[padlen:]` handed to the constant-time copy has the length of `pt`, so
the copy does not panic on unequal lengths. -/
theorem padding.Pad_returns (pt : List Byte) (padlen : Int) (h : 0 ≤ padlen)
    (hl : padlen + pt.length ≤ golang.maxAlloc) :
    (padding.Pad pt padlen).returns = true ∧
    ∃ paddedpt dst copied,
      golang.make (golang.addInt padlen pt.length) = .ret paddedpt ∧
      golang.sliceFrom paddedpt padlen = .ret dst ∧
      dst.length = pt.length ∧
      subtle.ConstantTimeCopy 1 dst pt = .ret copied := by
  constructor
  · rw [padding.Pad_eq pt padlen h hl]
    rfl
  · have hlen : ((List.replicate (padlen + (pt.length : Int)).toNat (0 : Byte)).length : Int)
        = padlen + pt.length := by
      rw [List.length_replicate]; omega
    have hdst : (List.drop padlen.toNat
        (List.replicate (padlen + (pt.length : Int)).toNat (0 : Byte))).length = pt.length := by
      rw [List.length_drop, List.length_replicate]; omega
    refine ⟨_, _, _, ?_, golang.sliceFrom_ok _ _ h (by rw [hlen]; omega), hdst,
      subtle.ConstantTimeCopy_one _ _ hdst⟩
    rw [golang.addInt_of_small _ _ (by omega) hl]
    exact golang.make_ok _ (by omega) hl

theorem padding.Pad_returns_witness :
    (padding.Pad [7, 8, 9] 2).returns = true ∧
    ∃ paddedpt dst copied,
      golang.make (golang.addInt 2 ([7, 8, 9] : List Byte).length) = .ret paddedpt ∧
      golang.sliceFrom paddedpt 2 = .ret dst ∧
      dst.length = ([7, 8, 9] : List Byte).length ∧
      subtle.ConstantTimeCopy 1 dst [7, 8, 9] = .ret copied :=
  padding.Pad_returns [7, 8, 9] 2 (by decide) (by decide)

/-- For a padding length of an `int`, `Pad` returns exactly when the padding
length is non-negative and the total length is within the allocation limit. -/
theorem padding.Pad_returns_iff (pt : List Byte) (padlen : Int)
    (hi : padlen < 9223372036854775808) (hpt : (pt.length : Int) ≤ golang.maxAlloc) :
    (padding.Pad pt padlen).returns = true ↔
      0 ≤ padlen ∧ padlen + pt.length ≤ golang.maxAlloc := by
  constructor
  · intro hr
    by_cases h0 : 0 ≤ padlen
    · by_cases hl : padlen + pt.length ≤ golang.maxAlloc
      · exact ⟨h0, hl⟩
      · rw [padding.Pad_panic_of_large pt padlen h0 hi hpt (by omega)] at hr
        cases hr
    · have ha := padding.Pad_neg pt padlen (by omega)
      cases hp : padding.Pad pt padlen with
      | ret v => rw [hp] at ha; cases ha
      | panic m => rw [hp] at hr; cases hr
  · rintro ⟨h0, hl⟩
    rw [padding.Pad_eq pt padlen h0 hl]
    rfl

/-- C18. Pad composes additively: for every byte sequence `pt` (a slice, so of
at most `2^48` bytes) and every `a, b ≥ 0` whose sum is an `int`,
`Pad(Pad(pt, a), b) = Pad(pt, a + b)`: both sides return the same buffer,
`a + b` zero bytes followed by `pt`, when `a + b + len(pt)` is within the
allocation limit, and both panic in `make` otherwise; and `Pad(pt, 0) = pt`. -/
theorem padding.Pad_Pad (pt : List Byte) (a b : Int) (ha : 0 ≤ a) (hb : 0 ≤ b)
    (hab : a + b < 9223372036854775808) (hpt : (pt.length : Int) ≤ golang.maxAlloc) :
    (padding.Pad pt a).andThen (fun paddedpt => padding.Pad paddedpt b)
      = padding.Pad pt (golang.addInt a b) ∧
    (a + b + pt.length ≤ golang.maxAlloc →
      padding.Pad pt (golang.addInt a b) = .ret (List.replicate (a + b).toNat 0 ++ pt)) ∧
    (golang.maxAlloc < a + b + pt.length →
      padding.Pad pt (golang.addInt a b)
        = .panic "runtime error: makeslice: len out of range") ∧
    padding.Pad pt 0 = .ret pt := by
  have hm := golang.maxAlloc_eq
  have hsum : golang.addInt a b = a + b := by
    unfold golang.addInt
    exact golang.int64_of_small _ (by omega) (by omega)
  have hin : a + b + pt.length ≤ golang.maxAlloc →
      padding.Pad pt (a + b) = .ret (List.replicate (a + b).toNat 0 ++ pt) :=
    fun hl => padding.Pad_eq pt (a + b) (by omega) hl
  have hout : golang.maxAlloc < a + b + pt.length →
      padding.Pad pt (a + b) = .panic "runtime error: makeslice: len out of range" :=
    fun hl => padding.Pad_panic_of_large pt (a + b) (by omega) hab hpt hl
  rw [hsum]
  refine ⟨?_, hin, hout, ?_⟩
  · by_cases hl : a + b + pt.length ≤ golang.maxAlloc
    · have hab1 : (a + b).toNat = b.toNat + a.toNat := by omega
      have hlen : ((List.replicate a.toNat (0 : Byte) ++ pt).length : Int) = a + pt.length := by
        rw [List.length_append, List.length_replicate]; omega
      rw [padding.Pad_eq pt a ha (by omega), Outcome.andThen_ret,
        padding.Pad_eq _ b hb (by rw [hlen]; omega), hin hl, hab1, List.replicate_add,
        List.append_assoc]
    · rw [hout (by omega)]
      by_cases hla : a + pt.length ≤ golang.maxAlloc
      · have hlen : ((List.replicate a.toNat (0 : Byte) ++ pt).length : Int)
            = a + pt.length := by
          rw [List.length_append, List.length_replicate]; omega
        rw [padding.Pad_eq pt a ha hla, Outcome.andThen_ret,
          padding.Pad_panic_of_large _ b hb (by omega) (by rw [hlen]; exact hla)
            (by rw [hlen]; omega)]
      · rw [padding.Pad_panic_of_large pt a ha (by omega) hpt (by omega)]
        rfl
  · have e := padding.Pad_eq pt 0 (le_refl 0) (by omega)
    rw [e]
    rfl

theorem padding.Pad_Pad_witness :
    (padding.Pad [7, 8, 9] 2).andThen (fun paddedpt => padding.Pad paddedpt 3)
      = padding.Pad [7, 8, 9] (golang.addInt 2 3) ∧
    ((2 : Int) + 3 + ([7, 8, 9] : List Byte).length ≤ golang.maxAlloc →
      padding.Pad [7, 8, 9] (golang.addInt 2 3)
        = .ret (List.replicate ((2 : Int) + 3).toNat 0 ++ [7, 8, 9])) ∧
    (golang.maxAlloc < (2 : Int) + 3 + ([7, 8, 9] : List Byte).length →
      padding.Pad [7, 8, 9] (golang.addInt 2 3)
        = .panic "runtime error: makeslice: len out of range") ∧
    padding.Pad [7, 8, 9] 0 = .ret [7, 8, 9] :=
  padding.Pad_Pad [7, 8, 9] 2 3 (by decide) (by decide) (by decide) (by decide)

/-! ## The constant-time comparison and Unpad -/

theorem golang.int32_bounds (x : Int) :
    -2147483648 ≤ golang.int32 x ∧ golang.int32 x < 2147483648 := by
  unfold golang.int32
  simp only
  split <;> omega

theorem golang.int32_of_small (x : Int) (h0 : -2147483648 ≤ x) (h1 : x < 2147483648) :
    golang.int32 x = x := by
  unfold golang.int32
  simp only
  split <;> omega

/-- Up to Go 1.25 the comparison returns the sign bit of the 32-bit difference
`x32 - y32 - 1`. -/
theorem subtle.ConstantTimeLessOrEq_eq (x y : Int) :
    subtle.ConstantTimeLessOrEq .upTo125 x y =
      if golang.int32 (golang.int32 x - golang.int32 y - 1) < 0 then 1 else 0 := by
  unfold subtle.ConstantTimeLessOrEq
  simp only
  have hb := golang.int32_bounds (golang.int32 x - golang.int32 y - 1)
  rw [Int.shiftRight_eq_div_pow]
  split
  · have hd : golang.int32 (golang.int32 x - golang.int32 y - 1) / ((2 ^ 31 : Nat) : Int) = -1 := by
      norm_num
      omega
    rw [hd]
    decide
  · have hd : golang.int32 (golang.int32 x - golang.int32 y - 1) / ((2 ^ 31 : Nat) : Int) = 0 := by
      norm_num
      omega
    rw [hd]
    decide

/-- Up to Go 1.25 the result of the comparison only depends on `y - x` modulo
`2^32`. -/
theorem subtle.ConstantTimeLessOrEq_eq_mod (x y : Int) :
    subtle.ConstantTimeLessOrEq .upTo125 x y
      = if (y - x) % 4294967296 < 2147483648 then 1 else 0 := by
  rw [subtle.ConstantTimeLessOrEq_eq]
  unfold golang.int32
  simp only
  split_ifs <;> omega

/-- After Go 1.25 the comparison is `x ≤ y` on every pair of arguments. -/
theorem subtle.ConstantTimeLessOrEq_after (x y : Int) :
    subtle.ConstantTimeLessOrEq .after125 x y = if x ≤ y then 1 else 0 := rfl

/-- On the documented domain `[0, 2^31 - 1]` the comparison is `x ≤ y` with
every toolchain. -/
theorem subtle.ConstantTimeLessOrEq_spec (tc : golang.Toolchain) (x y : Int)
    (hx0 : 0 ≤ x) (hx : x < 2147483648) (hy0 : 0 ≤ y) (hy : y < 2147483648) :
    subtle.ConstantTimeLessOrEq tc x y = if x ≤ y then 1 else 0 := by
  cases tc with
  | upTo125 =>
    rw [subtle.ConstantTimeLessOrEq_eq_mod]
    split_ifs <;> omega
  | after125 => rfl

/-- When the comparison returns `1`, `Unpad` is the slice expression
`paddedpt[padlen:]`. -/
theorem padding.Unpad_of_one (tc : golang.Toolchain) (paddedpt : List Byte) (padlen : Int)
    (h : subtle.ConstantTimeLessOrEq tc padlen paddedpt.length = 1) :
    padding.Unpad tc paddedpt padlen =
      (golang.sliceFrom paddedpt padlen).andThen fun pt => .ret (pt, none) := by
  unfold padding.Unpad
  rw [h, if_neg (by decide)]

/-- When the comparison returns `0`, `Unpad` returns the error. -/
theorem padding.Unpad_of_zero (tc : golang.Toolchain) (paddedpt : List Byte) (padlen : Int)
    (h : subtle.ConstantTimeLessOrEq tc padlen paddedpt.length = 0) :
    padding.Unpad tc paddedpt padlen = .ret ([], some "plaintext is shorter than padding") := by
  unfold padding.Unpad
  rw [h, if_pos rfl]

/-- Up to Go 1.25, when the 32-bit comparison lets `padlen` through, `Unpad` is
the slice expression `paddedpt[padlen:]`. -/
theorem padding.Unpad_of_check (paddedpt : List Byte) (padlen : Int)
    (h : ((paddedpt.length : Int) - padlen) % 4294967296 < 2147483648) :
    padding.Unpad .upTo125 paddedpt padlen =
      (golang.sliceFrom paddedpt padlen).andThen fun pt => .ret (pt, none) :=
  padding.Unpad_of_one _ _ _ (by rw [subtle.ConstantTimeLessOrEq_eq_mod, if_pos h])

/-- Up to Go 1.25, when the 32-bit comparison stops `padlen`, `Unpad` returns
the error. -/
theorem padding.Unpad_of_not_check (paddedpt : List Byte) (padlen : Int)
    (h : ¬ ((paddedpt.length : Int) - padlen) % 4294967296 < 2147483648) :
    padding.Unpad .upTo125 paddedpt padlen
      = .ret ([], some "plaintext is shorter than padding") :=
  padding.Unpad_of_zero _ _ _ (by rw [subtle.ConstantTimeLessOrEq_eq_mod, if_neg h])

/-- `Unpad` strips the first `padlen` bytes whenever `0 ≤ padlen ≤ len(paddedpt)`:
after Go 1.25 on every buffer, up to Go 1.25 on buffers shorter than `2^31`
bytes. -/
theorem padding.Unpad_accept (tc : golang.Toolchain) (paddedpt : List Byte) (padlen : Int)
    (h0 : 0 ≤ padlen) (h1 : padlen ≤ paddedpt.length)
    (htc : tc = .upTo125 → (paddedpt.length : Int) < 2147483648) :
    padding.Unpad tc paddedpt padlen = .ret (paddedpt.drop padlen.toNat, none) := by
  have hone : subtle.ConstantTimeLessOrEq tc padlen paddedpt.length = 1 := by
    cases tc with
    | upTo125 =>
      have hs := htc rfl
      rw [subtle.ConstantTimeLessOrEq_eq_mod, if_pos (by omega)]
    | after125 => rw [subtle.ConstantTimeLessOrEq_after, if_pos h1]
  rw [padding.Unpad_of_one tc _ _ hone, golang.sliceFrom_ok _ _ h0 h1]
  rfl

/-- `Unpad` rejects a padding length above the buffer length with the error:
after Go 1.25 always, up to Go 1.25 for a padding length below `2^31`. -/
theorem padding.Unpad_reject (tc : golang.Toolchain) (paddedpt : List Byte) (padlen : Int)
    (h : (paddedpt.length : Int) < padlen)
    (htc : tc = .upTo125 → padlen < 2147483648) :
    padding.Unpad tc paddedpt padlen = .ret ([], some "plaintext is shorter than padding") := by
  apply padding.Unpad_of_zero
  cases tc with
  | upTo125 =>
    have hs := htc rfl
    rw [subtle.ConstantTimeLessOrEq_eq_mod, if_neg (by omega)]
  | after125 => rw [subtle.ConstantTimeLessOrEq_after, if_neg (by omega)]

/-- C1 (as stated). Round trip for every `padlen ≥ 0`: it fails for
`pt = [7]` and `padlen = 2^63 - 1`, where `Pad` panics in `make`, so that
`Unpad(Pad(pt, padlen), padlen)` aborts with every toolchain. -/
theorem padding.Unpad_Pad_aborts_at_max_int :
    (0 : Int) ≤ 9223372036854775807 ∧
    (padding.Pad [7] 9223372036854775807).andThen
        (fun paddedpt => padding.Unpad .upTo125 paddedpt 9223372036854775807)
      = .panic "runtime error: makeslice: len out of range" ∧
    (padding.Pad [7] 9223372036854775807).andThen
        (fun paddedpt => padding.Unpad .after125 paddedpt 9223372036854775807)
      = .panic "runtime error: makeslice: len out of range" := by
  refine ⟨by decide, by decide, by decide⟩

/-- C1 (amended). Round trip: for every byte sequence `pt` and every
`padlen ≥ 0` with `padlen + len(pt)` within the allocation limit `2^48`,
`Unpad(Pad(pt, padlen), padlen)` returns `pt` and no error, without panicking:
after Go 1.25 for every such `pt`, up to Go 1.25 for `pt` shorter than `2^31`
bytes. -/
theorem padding.Unpad_Pad (tc : golang.Toolchain) (pt : List Byte) (padlen : Int)
    (h0 : 0 ≤ padlen) (hl : padlen + pt.length ≤ golang.maxAlloc)
    (htc : tc = .upTo125 → (pt.length : Int) < 2147483648) :
    (padding.Pad pt padlen).andThen (fun paddedpt => padding.Unpad tc paddedpt padlen)
      = .ret (pt, none) := by
  have hlen : ((List.replicate padlen.toNat (0 : Byte) ++ pt).length : Int)
      = padlen + pt.length := by
    rw [List.length_append, List.length_replicate]; omega
  have hone : subtle.ConstantTimeLessOrEq tc padlen
      ((List.replicate padlen.toNat (0 : Byte) ++ pt).length : Int) = 1 := by
    rw [hlen]
    cases tc with
    | upTo125 =>
      have hs := htc rfl
      rw [subtle.ConstantTimeLessOrEq_eq_mod, if_pos (by omega)]
    | after125 => rw [subtle.ConstantTimeLessOrEq_after, if_pos (by omega)]
  rw [padding.Pad_eq pt padlen h0 hl, Outcome.andThen_ret,
    padding.Unpad_of_one tc _ _ hone,
    golang.sliceFrom_ok _ _ h0 (by rw [hlen]; omega), Outcome.andThen_ret,
    List.drop_left' (List.length_replicate _ _)]

theorem padding.Unpad_Pad_witness :
    (padding.Pad [7, 8, 9] 2).andThen
        (fun paddedpt => padding.Unpad .upTo125 paddedpt 2)
      = .ret ([7, 8, 9], none) :=
  padding.Unpad_Pad .upTo125 [7, 8, 9] 2 (by decide) (by decide) (fun _ => by decide)

/-- Up to Go 1.25 the round trip fails for the plaintext of `2^31` zero bytes
and `padlen = 16`: `Unpad` returns the error instead of the plaintext. -/
theorem padding.Unpad_Pad_two_pow_31 :
    (padding.Pad (List.replicate 2147483648 0) 16).andThen
        (fun paddedpt => padding.Unpad .upTo125 paddedpt 16)
      = .ret ([], some "plaintext is shorter than padding") := by
  have hl : (16 : Int) + ((List.replicate 2147483648 (0 : Byte)).length : Int)
      ≤ golang.maxAlloc := by
    rw [List.length_replicate]; decide
  rw [padding.Pad_eq _ 16 (by decide) hl, Outcome.andThen_ret]
  apply padding.Unpad_of_not_check
  rw [List.length_append, List.length_replicate, List.length_replicate]
  have e : ((16 : Int).toNat) = 16 := rfl
  rw [e]
  decide

/-- C2. Rejection of `padlen > len(paddedpt)`: with a toolchain up to Go 1.25
it fails for `paddedpt = [0x01, 0x02]` and `padlen = 2^31 + 3`, where the
comparison on `int32` lets the length through and the slice expression
panics. -/
theorem padding.Unpad_panics_at_wrapped_padlen :
    padding.Unpad .upTo125 [1, 2] 2147483651
      = .panic "runtime error: slice bounds out of range" := by
  decide

/-- C3. Unpad success for `0 ≤ padlen ≤ len(paddedpt)`: with a toolchain up to
Go 1.25 it fails for the buffer of `2^31` zero bytes and `padlen = 0`, where
`Unpad` returns the error and no bytes. -/
theorem padding.Unpad_error_at_two_pow_31 :
    padding.Unpad .upTo125 (List.replicate 2147483648 0) 0
      = .ret ([], some "plaintext is shorter than padding") := by
  apply padding.Unpad_of_not_check
  rw [List.length_replicate]
  decide

/-! ## Unpad and the padding bytes -/

/-- The outcome of `Unpad` depends on the buffer only through its length and
its bytes from offset `padlen` on. -/
theorem padding.Unpad_suffix_only (tc : golang.Toolchain) (x y : List Byte) (padlen : Int)
    (hl : x.length = y.length) (hs : x.drop padlen.toNat = y.drop padlen.toNat) :
    padding.Unpad tc x padlen = padding.Unpad tc y padlen := by
  unfold padding.Unpad golang.sliceFrom
  rw [hl, hs]

/-- Two lists that agree at every index from `k` on have the same suffix from
`k` on. -/
theorem golang.drop_eq_of_agree (x y : List Byte) (k : Nat)
    (h : ∀ j : Nat, k ≤ j → x[j]? = y[j]?) : x.drop k = y.drop k := by
  apply List.ext_getElem?
  intro n
  rw [List.getElem?_drop, List.getElem?_drop]
  exact h (k + n) (by omega)

/-- `Unpad` does not inspect the padding bytes: on two buffers of the same
length `≥ padlen` that agree on all positions `≥ padlen` both calls succeed and
return the same bytes, after Go 1.25 on every buffer, up to Go 1.25 on buffers
shorter than `2^31` bytes. -/
theorem padding.Unpad_ignores_prefix (tc : golang.Toolchain) (x y : List Byte) (padlen : Int)
    (h0 : 0 ≤ padlen) (hx : padlen ≤ x.length) (hl : x.length = y.length)
    (hs : ∀ j : Nat, padlen ≤ j → x[j]? = y[j]?)
    (htc : tc = .upTo125 → (x.length : Int) < 2147483648) :
    padding.Unpad tc x padlen = .ret (x.drop padlen.toNat, none) ∧
    padding.Unpad tc y padlen = .ret (x.drop padlen.toNat, none) := by
  have hd : x.drop padlen.toNat = y.drop padlen.toNat :=
    golang.drop_eq_of_agree x y padlen.toNat (fun j hj => hs j (by omega))
  refine ⟨padding.Unpad_accept tc x padlen h0 hx htc, ?_⟩
  rw [← padding.Unpad_suffix_only tc x y padlen hl hd]
  exact padding.Unpad_accept tc x padlen h0 hx htc

/-- C17. Unpad does not inspect the padding bytes, and succeeds on two buffers
of the same length that agree from offset `padlen` on: with a toolchain up to
Go 1.25 it fails for the buffers `0x00 :: z` and `0xff :: z`, with `z` of `2^31`
bytes `0x07`, and `padlen = 1`, where both calls return the error "plaintext is
shorter than padding". -/
theorem padding.Unpad_error_on_long_suffix :
    ((0 : Byte) :: List.replicate 2147483648 7).length
      = ((255 : Byte) :: List.replicate 2147483648 7).length ∧
    ((0 : Byte) :: List.replicate 2147483648 7).drop 1
      = ((255 : Byte) :: List.replicate 2147483648 7).drop 1 ∧
    padding.Unpad .upTo125 (0 :: List.replicate 2147483648 7) 1
      = .ret ([], some "plaintext is shorter than padding") ∧
    padding.Unpad .upTo125 (255 :: List.replicate 2147483648 7) 1
      = .ret ([], some "plaintext is shorter than padding") := by
  refine ⟨?_, ?_, ?_, ?_⟩
  · rw [List.length_cons, List.length_cons]
  · rw [List.drop_succ_cons, List.drop_succ_cons]
  · apply padding.Unpad_of_not_check
    rw [List.length_cons, List.length_replicate]
    decide
  · apply padding.Unpad_of_not_check
    rw [List.length_cons, List.length_replicate]
    decide

/-! ## The keyed hash -/

theorem blake2b.compress_length (h : List Nat) (block : List Byte) (t : Nat) (final : Bool) :
    (blake2b.compress h block t final).length = 8 := by
  unfold blake2b.compress
  simp

theorem blake2b.absorb_length (fuel : Nat) (h : List Nat) (t : Nat) (data : List Byte) :
    (blake2b.absorb fuel h t data).length = 8 := by
  induction fuel generalizing h t data with
  | zero => exact blake2b.compress_length _ _ _ _
  | succ n ih =>
    unfold blake2b.absorb
    split
    · exact blake2b.compress_length _ _ _ _
    · exact ih _ _ _

theorem blake2b.flatMap_bytes64_length (l : List Nat) :
    (l.flatMap blake2b.bytes64).length = 8 * l.length := by
  induction l with
  | nil => rfl
  | cons a s ih =>
    rw [List.flatMap_cons, List.length_append, ih, List.length_cons]
    have : (blake2b.bytes64 a).length = 8 := by simp [blake2b.bytes64]
    omega

/-- The digest has 32 bytes. -/
theorem blake2b.sum256_length (key data : List Byte) :
    (blake2b.sum256 key data).length = 32 := by
  unfold blake2b.sum256
  simp only
  rw [List.length_take, blake2b.flatMap_bytes64_length, blake2b.absorb_length]
  rfl

/-- The hash accepts exactly the keys of at most 64 bytes. -/
theorem blake2b.New256_ok_iff (key : List Byte) :
    (∃ h, blake2b.New256 key = .ok h) ↔ key.length ≤ 64 := by
  unfold blake2b.New256
  constructor
  · intro ⟨h, hh⟩
    by_contra hc
    rw [if_pos (by omega)] at hh
    cases hh
  · intro hk
    rw [if_neg (by omega)]
    exact ⟨_, rfl⟩

/-! ## Length -/

theorem binary.BigEndian.Uint32_of_length (b : List Byte) (h : 4 ≤ b.length) :
    ∃ r, binary.BigEndian.Uint32 b = .ret r := by
  match b, h with
  | b0 :: b1 :: b2 :: b3 :: _, _ => exact ⟨_, rfl⟩

theorem padding.isUint32_iff (i : Int) :
    padding.isUint32 i = true ↔ 0 ≤ i ∧ i < 4294967295 := by
  unfold padding.isUint32
  split <;> simp_all

/-- Once both checks on `maxlen` pass and the hash accepts the key, `Length`
returns the big-endian value `r` of the first four digest bytes masked with
`max - 1`. -/
theorem padding.Length_of_checks (maxlen : Int) (nonce key : List Byte)
    (h1 : padding.isUint32 maxlen = true)
    (h2 : golang.uint32 maxlen &&& golang.subUint32 (golang.uint32 maxlen) 1 = 0)
    (hk : key.length ≤ 64) :
    ∃ r : Nat, binary.BigEndian.Uint32 ((blake2b.sum256 key nonce).take 4) = .ret r ∧
      padding.Length maxlen nonce key
        = .ret ((r &&& golang.subUint32 (golang.uint32 maxlen) 1 : Nat) : Int) := by
  have hlen := blake2b.sum256_length key nonce
  obtain ⟨r, hr⟩ := binary.BigEndian.Uint32_of_length ((blake2b.sum256 key nonce).take 4)
    (by rw [List.length_take, hlen]; decide)
  refine ⟨r, hr, ?_⟩
  have hN : blake2b.New256 key = .ok { key := key, written := [] } := by
    unfold blake2b.New256
    rw [if_neg (by omega)]
  have hs : golang.sliceTo (blake2b.sum256 key nonce) 4
      = .ret ((blake2b.sum256 key nonce).take 4) := by
    unfold golang.sliceTo
    rw [if_neg (by rw [hlen]; decide)]
    rfl
  unfold padding.Length
  rw [h1, hN]
  simp only [Bool.not_true, Bool.false_eq_true, if_false, h2, ne_eq, not_true_eq_false,
    blake2b.digest.Write, blake2b.digest.Sum, List.nil_append]
  rw [hs, Outcome.andThen_ret, hr, Outcome.andThen_ret]

theorem golang.uint32_of_range (m : Int) (h0 : 0 ≤ m) (h1 : m < 4294967296) :
    golang.uint32 m = m.toNat := by
  unfold golang.uint32
  omega

theorem golang.subUint32_one (m : Nat) (h0 : 0 < m) (h1 : m < 4294967296) :
    golang.subUint32 m 1 = m - 1 := by
  unfold golang.subUint32
  omega

/-- A power of two passes the mask check `m & (m - 1) == 0`. -/
theorem golang.and_pred_pow_two (k : Nat) : 2 ^ k &&& (2 ^ k - 1) = 0 := by
  rw [Nat.and_pow_two_sub_one_eq_mod, Nat.mod_self]

/-- A positive number that passes the mask check `m & (m - 1) == 0` is a power
of two. -/
theorem golang.pow_two_of_and_pred (m : Nat) (hm : 0 < m) (h : m &&& (m - 1) = 0) :
    ∃ k : Nat, m = 2 ^ k := by
  induction m using Nat.strong_induction_on with
  | _ m ih =>
    rcases Nat.even_or_odd' m with ⟨n, rfl | rfl⟩
    · have hn : 0 < n := by omega
      have e1 : 2 * n = Nat.bit false n := by rw [Nat.bit_val]; simp
      have e2 : 2 * n - 1 = Nat.bit true (n - 1) := by rw [Nat.bit_val]; simp; omega
      rw [e2, e1, Nat.land_bit, Nat.bit_val] at h
      simp at h
      obtain ⟨k, hk⟩ := ih n (by omega) hn h
      exact ⟨k + 1, by rw [hk, pow_succ]; ring⟩
    · have e1 : 2 * n + 1 = Nat.bit true n := by rw [Nat.bit_val]; simp
      have e2 : 2 * n + 1 - 1 = Nat.bit false n := by rw [Nat.bit_val]; simp
      rw [e2, e1, Nat.land_bit, Nat.bit_val] at h
      simp at h
      exact ⟨0, by rw [h]; rfl⟩

theorem padding.Length_panic_of_range (maxlen : Int) (nonce key : List Byte)
    (h : padding.isUint32 maxlen = false) :
    padding.Length maxlen nonce key = .panic "maxlen is out of range" := by
  unfold padding.Length
  rw [h]
  rfl

theorem padding.Length_panic_of_mask (maxlen : Int) (nonce key : List Byte)
    (h1 : padding.isUint32 maxlen = true)
    (h2 : golang.uint32 maxlen &&& golang.subUint32 (golang.uint32 maxlen) 1 ≠ 0) :
    padding.Length maxlen nonce key = .panic "max padding length is not power of two" := by
  unfold padding.Length
  rw [h1]
  simp only [Bool.not_true, Bool.false_eq_true, if_false]
  rw [if_pos h2]

/-- C6 (as stated). Range under the preconditions `0 ≤ maxlen < 2^32 - 1` and
`maxlen & (maxlen - 1) == 0`: it fails for `maxlen = 0`, which passes both
checks, and for which `Length(0, [], [])` returns `240603584`, not a value
below `maxlen`. -/
theorem padding.Length_zero_out_of_range :
    ((0 : Int) ≤ 0 ∧ (0 : Int) < 4294967295) ∧
    golang.uint32 0 &&& golang.subUint32 (golang.uint32 0) 1 = 0 ∧
    padding.Length 0 [] [] = .ret 240603584 ∧
    ¬ ∃ padlen : Int, padding.Length 0 [] [] = .ret padlen ∧ 0 ≤ padlen ∧ padlen < 0 := by
  refine ⟨by decide, by decide, by decide, ?_⟩
  rintro ⟨p, _, h0, h1⟩
  omega

/-- C6 (amended). Range: for every `maxlen` with `1 ≤ maxlen < 2^32 - 1` and
`maxlen & (maxlen - 1) == 0`, every nonce and every key the hash accepts,
`Length(maxlen, nonce, key)` returns a value `padlen` with `0 ≤ padlen < maxlen`. -/
theorem padding.Length_range (maxlen : Int) (nonce key : List Byte)
    (h0 : 1 ≤ maxlen) (h1 : maxlen < 4294967295)
    (hp : maxlen.toNat &&& (maxlen.toNat - 1) = 0)
    (hk : ∃ h, blake2b.New256 key = .ok h) :
    ∃ padlen : Int, padding.Length maxlen nonce key = .ret padlen ∧
      0 ≤ padlen ∧ padlen < maxlen := by
  have hu := golang.uint32_of_range maxlen (by omega) (by omega)
  have hs := golang.subUint32_one maxlen.toNat (by omega) (by omega)
  obtain ⟨r, _, hr⟩ := padding.Length_of_checks maxlen nonce key
    ((padding.isUint32_iff maxlen).2 ⟨by omega, h1⟩) (by rw [hu, hs]; exact hp)
    ((blake2b.New256_ok_iff key).1 hk)
  refine ⟨_, hr, Int.natCast_nonneg _, ?_⟩
  rw [hu, hs]
  have hle : r &&& (maxlen.toNat - 1) ≤ maxlen.toNat - 1 := Nat.and_le_right
  omega

theorem padding.Length_range_witness :
    ∃ padlen : Int, padding.Length 16 [1, 2, 3] [4, 5] = .ret padlen ∧
      0 ≤ padlen ∧ padlen < 16 :=
  padding.Length_range 16 [1, 2, 3] [4, 5] (by decide) (by decide) (by decide) ⟨_, rfl⟩

/-- C7. Power-of-two enforcement: it fails for `maxlen = 0`, which is not a
power of two, and for which `Length(0, [1,2,3], [4,5])` returns `1750908487`
instead of panicking. -/
theorem padding.Length_zero_returns :
    (¬ ∃ k : Nat, (0 : Int) = 2 ^ k) ∧
    padding.Length 0 [1, 2, 3] [4, 5] = .ret 1750908487 := by
  refine ⟨?_, by decide⟩
  rintro ⟨k, hk⟩
  have : (0 : Int) < 2 ^ k := by positivity
  omega

/-- C8. Exact abort condition of `Length`: for every nonce and every key the
hash accepts, `Length(maxlen, nonce, key)` panics if and only if `maxlen < 0`,
or `maxlen ≥ 2^32 - 1`, or `maxlen & (maxlen - 1) != 0` computed on `uint32`;
otherwise it returns a value, and `maxlen = 16` is such a case. -/
theorem padding.Length_aborts_iff (maxlen : Int) (nonce key : List Byte)
    (hk : ∃ h, blake2b.New256 key = .ok h) :
    ((padding.Length maxlen nonce key).aborts = true ↔
      (maxlen < 0 ∨ maxlen ≥ 4294967295 ∨
        golang.uint32 maxlen &&& golang.subUint32 (golang.uint32 maxlen) 1 ≠ 0)) ∧
    ((padding.Length maxlen nonce key).aborts = false →
      ∃ padlen, padding.Length maxlen nonce key = .ret padlen) ∧
    (padding.Length 16 nonce key).aborts = false := by
  have hkl := (blake2b.New256_ok_iff key).1 hk
  have h16 : (padding.Length 16 nonce key).aborts = false := by
    obtain ⟨r, _, hr⟩ := padding.Length_of_checks 16 nonce key (by decide) (by decide) hkl
    rw [hr]; rfl
  refine ⟨?_, ?_, h16⟩
  · by_cases hu : padding.isUint32 maxlen = true
    · have hrange := (padding.isUint32_iff maxlen).1 hu
      by_cases hm : golang.uint32 maxlen &&& golang.subUint32 (golang.uint32 maxlen) 1 = 0
      · obtain ⟨r, _, hr⟩ := padding.Length_of_checks maxlen nonce key hu hm hkl
        rw [hr]
        constructor
        · intro h; cases h
        · rintro (h | h | h)
          · omega
          · omega
          · exact absurd hm h
      · rw [padding.Length_panic_of_mask maxlen nonce key hu hm]
        exact ⟨fun _ => Or.inr (Or.inr hm), fun _ => rfl⟩
    · have hf : padding.isUint32 maxlen = false := by
        cases hb : padding.isUint32 maxlen
        · rfl
        · exact absurd hb hu
      rw [padding.Length_panic_of_range maxlen nonce key hf]
      refine ⟨fun _ => ?_, fun _ => rfl⟩
      have hn : ¬ (0 ≤ maxlen ∧ maxlen < 4294967295) := fun hc =>
        hu ((padding.isUint32_iff maxlen).2 hc)
      by_cases hneg : maxlen < 0
      · exact Or.inl hneg
      · exact Or.inr (Or.inl (by omega))
  · intro h
    cases hL : padding.Length maxlen nonce key with
    | ret v => exact ⟨v, rfl⟩
    | panic m => rw [hL] at h; cases h

theorem padding.Length_aborts_iff_witness :
    ((padding.Length 6 [1, 2, 3] [4, 5]).aborts = true ↔
      ((6 : Int) < 0 ∨ (6 : Int) ≥ 4294967295 ∨
        golang.uint32 6 &&& golang.subUint32 (golang.uint32 6) 1 ≠ 0)) ∧
    ((padding.Length 6 [1, 2, 3] [4, 5]).aborts = false →
      ∃ padlen, padding.Length 6 [1, 2, 3] [4, 5] = .ret padlen) ∧
    (padding.Length 16 [1, 2, 3] [4, 5]).aborts = false :=
  padding.Length_aborts_iff 6 [1, 2, 3] [4, 5] ⟨_, rfl⟩

/-! ## IntToBinary -/

theorem golang.byte_val_natCast (n : Nat) : (golang.byte (n : Int)).val = n % 256 := by
  unfold golang.byte
  simp only [Fin.ofNat, Fin.val_mk]
  omega

/-- In range, `IntToBinary` returns the four bytes `byte(v>>24)`, `byte(v>>16)`,
`byte(v>>8)`, `byte(v)` of `v = uint32(i)`. -/
theorem padding.IntToBinary_eq (i : Int) (h0 : 0 ≤ i) (h1 : i < 4294967295) :
    padding.IntToBinary i = .ret
      [golang.byte ((i.toNat >>> 24 : Nat) : Int), golang.byte ((i.toNat >>> 16 : Nat) : Int),
       golang.byte ((i.toNat >>> 8 : Nat) : Int), golang.byte ((i.toNat : Nat) : Int)] := by
  unfold padding.IntToBinary
  rw [(padding.isUint32_iff i).2 ⟨h0, h1⟩, golang.uint32_of_range i h0 (by omega)]
  rfl

/-- C9. Bit-exact encoding: for every `i` with `0 ≤ i < 2^32 - 1`,
`IntToBinary(i)` returns exactly four bytes `[b0, b1, b2, b3]` with
`b0*2^24 + b1*2^16 + b2*2^8 + b3 = i` (big-endian); `IntToBinary(1)` is
`[0, 0, 0, 1]` and `IntToBinary(256)` is `[0, 0, 1, 0]`. -/
theorem padding.IntToBinary_big_endian (i : Int) (h0 : 0 ≤ i) (h1 : i < 4294967295) :
    (∃ b0 b1 b2 b3 : Byte, padding.IntToBinary i = .ret [b0, b1, b2, b3] ∧
      (b0.val : Int) * 2 ^ 24 + (b1.val : Int) * 2 ^ 16 + (b2.val : Int) * 2 ^ 8 + (b3.val : Int)
        = i) ∧
    padding.IntToBinary 1 = .ret [0, 0, 0, 1] ∧
    padding.IntToBinary 256 = .ret [0, 0, 1, 0] := by
  refine ⟨⟨_, _, _, _, padding.IntToBinary_eq i h0 h1, ?_⟩, by decide, by decide⟩
  rw [golang.byte_val_natCast, golang.byte_val_natCast, golang.byte_val_natCast,
    golang.byte_val_natCast, Nat.shiftRight_eq_div_pow, Nat.shiftRight_eq_div_pow,
    Nat.shiftRight_eq_div_pow]
  norm_num
  omega

theorem padding.IntToBinary_big_endian_witness :
    (∃ b0 b1 b2 b3 : Byte, padding.IntToBinary 305419896 = .ret [b0, b1, b2, b3] ∧
      (b0.val : Int) * 2 ^ 24 + (b1.val : Int) * 2 ^ 16 + (b2.val : Int) * 2 ^ 8 + (b3.val : Int)
        = 305419896) ∧
    padding.IntToBinary 1 = .ret [0, 0, 0, 1] ∧
    padding.IntToBinary 256 = .ret [0, 0, 1, 0] :=
  padding.IntToBinary_big_endian 305419896 (by decide) (by decide)

/-- C10. Range check of `IntToBinary`: for every `i`, `IntToBinary(i)` panics if
and only if `i` is not in the range `0 ≤ i < 2^32 - 1`; in particular it
panics for every `i < 0` and every `i > 2^32 - 1`. -/
theorem padding.IntToBinary_aborts_iff (i : Int) :
    ((padding.IntToBinary i).aborts = true ↔ ¬ (0 ≤ i ∧ i < 4294967295)) ∧
    ((i < 0 ∨ i > 4294967295) → (padding.IntToBinary i).aborts = true) := by
  have key : (padding.IntToBinary i).aborts = true ↔ ¬ (0 ≤ i ∧ i < 4294967295) := by
    by_cases h : 0 ≤ i ∧ i < 4294967295
    · rw [padding.IntToBinary_eq i h.1 h.2]
      exact ⟨fun hc => (by cases hc), fun hc => absurd h hc⟩
    · have hf : padding.isUint32 i = false := by
        cases hb : padding.isUint32 i
        · rfl
        · exact absurd ((padding.isUint32_iff i).1 hb) h
      unfold padding.IntToBinary
      rw [hf]
      exact ⟨fun _ => h, fun _ => rfl⟩
  refine ⟨key, fun h => key.2 ?_⟩
  omega

/-- Every `maxlen` other than `0` that is not a power of two makes `Length`
panic. -/
theorem padding.Length_aborts_of_not_pow_two (maxlen : Int) (nonce key : List Byte)
    (h0 : maxlen ≠ 0) (hp : ¬ ∃ k : Nat, maxlen = 2 ^ k) :
    (padding.Length maxlen nonce key).aborts = true := by
  by_cases hu : padding.isUint32 maxlen = true
  · have hrange := (padding.isUint32_iff maxlen).1 hu
    have hm : golang.uint32 maxlen &&& golang.subUint32 (golang.uint32 maxlen) 1 ≠ 0 := by
      rw [golang.uint32_of_range maxlen (by omega) (by omega),
        golang.subUint32_one maxlen.toNat (by omega) (by omega)]
      intro hc
      obtain ⟨k, hk⟩ := golang.pow_two_of_and_pred maxlen.toNat (by omega) hc
      apply hp
      refine ⟨k, ?_⟩
      have e : ((maxlen.toNat : Nat) : Int) = maxlen := Int.toNat_of_nonneg hrange.1
      rw [← e, hk]
      push_cast
      rfl
    rw [padding.Length_panic_of_mask maxlen nonce key hu hm]
    rfl
  · have hf : padding.isUint32 maxlen = false := by
      cases hb : padding.isUint32 maxlen
      · rfl
      · exact absurd hb hu
    rw [padding.Length_panic_of_range maxlen nonce key hf]
    rfl

/-! ## Length: the derivation -/

/-- The big-endian read of four bytes as a sum of powers of 256. -/
theorem binary.BigEndian.Uint32_eq (b0 b1 b2 b3 : Byte) (rest : List Byte) :
    binary.BigEndian.Uint32 (b0 :: b1 :: b2 :: b3 :: rest)
      = .ret (b0.val * 2 ^ 24 + b1.val * 2 ^ 16 + b2.val * 2 ^ 8 + b3.val) := by
  have h0 := b0.isLt
  have h1 := b1.isLt
  have h2 := b2.isLt
  have h3 := b3.isLt
  have e1 : b3.val ||| (b2.val <<< 8) = 2 ^ 8 * b2.val + b3.val := by
    rw [Nat.mul_add_lt_is_or (by omega : b3.val < 2 ^ 8) b2.val, Nat.or_comm,
      Nat.shiftLeft_eq, Nat.mul_comm b2.val (2 ^ 8)]
  have e2 : (2 ^ 8 * b2.val + b3.val) ||| (b1.val <<< 16)
      = 2 ^ 16 * b1.val + (2 ^ 8 * b2.val + b3.val) := by
    rw [Nat.mul_add_lt_is_or (by omega : 2 ^ 8 * b2.val + b3.val < 2 ^ 16) b1.val,
      Nat.or_comm, Nat.shiftLeft_eq, Nat.mul_comm b1.val (2 ^ 16)]
  have e3 : (2 ^ 16 * b1.val + (2 ^ 8 * b2.val + b3.val)) ||| (b0.val <<< 24)
      = 2 ^ 24 * b0.val + (2 ^ 16 * b1.val + (2 ^ 8 * b2.val + b3.val)) := by
    rw [Nat.mul_add_lt_is_or
        (by omega : 2 ^ 16 * b1.val + (2 ^ 8 * b2.val + b3.val) < 2 ^ 24) b0.val,
      Nat.or_comm, Nat.shiftLeft_eq, Nat.mul_comm b0.val (2 ^ 24)]
  unfold binary.BigEndian.Uint32
  simp only
  rw [e1, e2, e3]
  congr 1
  omega

/-- The first four bytes of a list of at least four bytes. -/
theorem golang.take_four (l : List Byte) (h : 4 ≤ l.length) :
    ∃ b0 b1 b2 b3 rest, l = b0 :: b1 :: b2 :: b3 :: rest ∧ l.take 4 = [b0, b1, b2, b3] := by
  match l, h with
  | b0 :: b1 :: b2 :: b3 :: rest, _ => exact ⟨b0, b1, b2, b3, rest, rfl, rfl⟩

/-- For a power of two `2^k` below `2^32 - 1` and an accepted key, `Length`
returns `r mod 2^k`, which is also `r & (2^k - 1)`, where `r` is the big-endian
value of the first four digest bytes. -/
theorem padding.Length_pow_two (k : Nat) (nonce key : List Byte)
    (h : (2 : Int) ^ k < 4294967295) (hk : key.length ≤ 64) :
    ∃ b0 b1 b2 b3 rest, blake2b.sum256 key nonce = b0 :: b1 :: b2 :: b3 :: rest ∧
      padding.Length (2 ^ k) nonce key
        = .ret (((b0.val * 2 ^ 24 + b1.val * 2 ^ 16 + b2.val * 2 ^ 8 + b3.val) % 2 ^ k : Nat) : Int)
      ∧ (b0.val * 2 ^ 24 + b1.val * 2 ^ 16 + b2.val * 2 ^ 8 + b3.val) &&& (2 ^ k - 1)
        = (b0.val * 2 ^ 24 + b1.val * 2 ^ 16 + b2.val * 2 ^ 8 + b3.val) % 2 ^ k := by
  have hn : (2 : Nat) ^ k < 4294967295 := by exact_mod_cast h
  have hpos : 0 < (2 : Nat) ^ k := by positivity
  have hcast : ((2 : Int) ^ k) = (((2 : Nat) ^ k : Nat) : Int) := by push_cast; rfl
  have hu : golang.uint32 ((2 : Int) ^ k) = 2 ^ k := by
    rw [golang.uint32_of_range _ (by positivity) (by omega), hcast, Int.toNat_ofNat]
  have hs := golang.subUint32_one (2 ^ k) hpos (by omega)
  obtain ⟨b0, b1, b2, b3, rest, hd, ht⟩ := golang.take_four (blake2b.sum256 key nonce)
    (by rw [blake2b.sum256_length]; decide)
  obtain ⟨r, hr, hL⟩ := padding.Length_of_checks (2 ^ k) nonce key
    ((padding.isUint32_iff _).2 ⟨by positivity, h⟩)
    (by rw [hu, hs]; exact golang.and_pred_pow_two k) hk
  rw [ht, binary.BigEndian.Uint32_eq] at hr
  cases hr
  refine ⟨b0, b1, b2, b3, rest, hd, ?_, Nat.and_pow_two_sub_one_eq_mod _ k⟩
  rw [hL, hu, hs, Nat.and_pow_two_sub_one_eq_mod]

/-- C12. Boundary: for every nonce and every key the hash accepts,
`Length(1, nonce, key) = 0`. -/
theorem padding.Length_one (nonce key : List Byte)
    (hk : ∃ h, blake2b.New256 key = .ok h) :
    padding.Length 1 nonce key = .ret 0 := by
  obtain ⟨b0, b1, b2, b3, rest, _, hL, _⟩ := padding.Length_pow_two 0 nonce key (by decide)
    ((blake2b.New256_ok_iff key).1 hk)
  have e : ((2 : Int) ^ 0) = 1 := by norm_num
  rw [e] at hL
  rw [hL, pow_zero, Nat.mod_one]
  rfl

theorem padding.Length_one_witness : padding.Length 1 [1, 2, 3] [4, 5] = .ret 0 :=
  padding.Length_one [1, 2, 3] [4, 5] ⟨_, rfl⟩

/-- C15. Derivation algorithm: for every power of two `maxlen` with
`1 ≤ maxlen < 2^32 - 1`, every nonce and every accepted key,
`Length(maxlen, nonce, key) = r & (maxlen - 1) = r mod maxlen`, where `r` is the
big-endian value of the first four bytes of the 32-byte keyed digest of the
nonce. -/
theorem padding.Length_derivation (maxlen : Int) (k : Nat) (nonce key : List Byte)
    (hp : maxlen = 2 ^ k) (h1 : maxlen < 4294967295)
    (hk : ∃ h, blake2b.New256 key = .ok h) :
    ∃ h b0 b1 b2 b3 rest,
      blake2b.New256 key = .ok h ∧
      (h.Write nonce).Sum [] = b0 :: b1 :: b2 :: b3 :: rest ∧ rest.length = 28 ∧
      padding.Length maxlen nonce key = .ret
        (((b0.val * 2 ^ 24 + b1.val * 2 ^ 16 + b2.val * 2 ^ 8 + b3.val)
          &&& (maxlen.toNat - 1) : Nat) : Int) ∧
      (b0.val * 2 ^ 24 + b1.val * 2 ^ 16 + b2.val * 2 ^ 8 + b3.val) &&& (maxlen.toNat - 1)
        = (b0.val * 2 ^ 24 + b1.val * 2 ^ 16 + b2.val * 2 ^ 8 + b3.val) % maxlen.toNat := by
  have hkl := (blake2b.New256_ok_iff key).1 hk
  subst hp
  obtain ⟨b0, b1, b2, b3, rest, hd, hL, hmask⟩ := padding.Length_pow_two k nonce key h1 hkl
  have hN : blake2b.New256 key = .ok { key := key, written := [] } := by
    unfold blake2b.New256
    rw [if_neg (by omega)]
  have hcast : ((2 : Int) ^ k).toNat = 2 ^ k := by
    have : ((2 : Int) ^ k) = (((2 : Nat) ^ k : Nat) : Int) := by push_cast; rfl
    rw [this, Int.toNat_ofNat]
  have hlen := blake2b.sum256_length key nonce
  rw [hd] at hlen
  refine ⟨_, b0, b1, b2, b3, rest, hN, ?_, ?_, ?_, ?_⟩
  · simp only [blake2b.digest.Write, blake2b.digest.Sum, List.nil_append]
    exact hd
  · simpa using hlen
  · rw [hcast, hmask]
    exact hL
  · rw [hcast]
    exact hmask

theorem padding.Length_derivation_witness :
    ∃ h b0 b1 b2 b3 rest,
      blake2b.New256 [4, 5] = .ok h ∧
      (h.Write [1, 2, 3]).Sum [] = b0 :: b1 :: b2 :: b3 :: rest ∧ rest.length = 28 ∧
      padding.Length 16 [1, 2, 3] [4, 5] = .ret
        (((b0.val * 2 ^ 24 + b1.val * 2 ^ 16 + b2.val * 2 ^ 8 + b3.val)
          &&& ((16 : Int).toNat - 1) : Nat) : Int) ∧
      (b0.val * 2 ^ 24 + b1.val * 2 ^ 16 + b2.val * 2 ^ 8 + b3.val) &&& ((16 : Int).toNat - 1)
        = (b0.val * 2 ^ 24 + b1.val * 2 ^ 16 + b2.val * 2 ^ 8 + b3.val) % (16 : Int).toNat :=
  padding.Length_derivation 16 4 [1, 2, 3] [4, 5] (by decide) (by decide) ⟨_, rfl⟩

/-- C16. Key failure: for every `maxlen` that passes the two checks and every
nonce, if `blake2b.New256` rejects the key with an error, as it does for every
key longer than 64 bytes, `Length(maxlen, nonce, key)` panics with that error
and returns no padding length. -/
theorem padding.Length_panic_of_key (maxlen : Int) (nonce key : List Byte) (err : String)
    (h0 : 0 ≤ maxlen) (h1 : maxlen < 4294967295)
    (h2 : golang.uint32 maxlen &&& golang.subUint32 (golang.uint32 maxlen) 1 = 0)
    (hk : blake2b.New256 key = .error err) :
    padding.Length maxlen nonce key = .panic err ∧
    (padding.Length maxlen nonce key).aborts = true ∧
    (∀ longkey : List Byte, 64 < longkey.length →
      blake2b.New256 longkey = .error "blake2b: invalid key size") := by
  have hL : padding.Length maxlen nonce key = .panic err := by
    unfold padding.Length
    rw [(padding.isUint32_iff maxlen).2 ⟨h0, h1⟩, hk]
    simp only [Bool.not_true, Bool.false_eq_true, if_false, h2, ne_eq, not_true_eq_false]
  refine ⟨hL, by rw [hL]; rfl, ?_⟩
  intro longkey hl
  unfold blake2b.New256
  rw [if_pos hl]

theorem padding.Length_panic_of_key_witness :
    padding.Length 16 [1, 2, 3] (List.replicate 65 0) = .panic "blake2b: invalid key size" ∧
    (padding.Length 16 [1, 2, 3] (List.replicate 65 0)).aborts = true ∧
    (∀ longkey : List Byte, 64 < longkey.length →
      blake2b.New256 longkey = .error "blake2b: invalid key size") :=
  padding.Length_panic_of_key 16 [1, 2, 3] (List.replicate 65 0) "blake2b: invalid key size"
    (by decide) (by decide) (by decide) rfl

/-- C19. Lengths for different bounds are nested: for every nonce, every
accepted key and every two powers of two `m1 ≤ m2` with `1 ≤ m1` and
`m2 < 2^32 - 1`, both calls return and
`Length(m1, nonce, key) = Length(m2, nonce, key) mod m1`. -/
theorem padding.Length_nested (m1 m2 : Int) (k1 k2 : Nat) (nonce key : List Byte)
    (hp1 : m1 = 2 ^ k1) (hp2 : m2 = 2 ^ k2) (hle : m1 ≤ m2) (hlt : m2 < 4294967295)
    (hk : ∃ h, blake2b.New256 key = .ok h) :
    ∃ p1 p2 : Int, padding.Length m1 nonce key = .ret p1 ∧
      padding.Length m2 nonce key = .ret p2 ∧ p1 = p2 % m1 := by
  have hkl := (blake2b.New256_ok_iff key).1 hk
  subst hp1 hp2
  have hkk : k1 ≤ k2 := by
    have hn : (2 : Nat) ^ k1 ≤ 2 ^ k2 := by exact_mod_cast hle
    exact (Nat.pow_le_pow_iff_right (by decide)).1 hn
  obtain ⟨a0, a1, a2, a3, resta, hda, hLa, _⟩ :=
    padding.Length_pow_two k1 nonce key (by omega) hkl
  obtain ⟨b0, b1, b2, b3, restb, hdb, hLb, _⟩ :=
    padding.Length_pow_two k2 nonce key hlt hkl
  rw [hda] at hdb
  injection hdb with e0 hdb
  injection hdb with e1 hdb
  injection hdb with e2 hdb
  injection hdb with e3 _
  subst e0 e1 e2 e3
  refine ⟨_, _, hLa, hLb, ?_⟩
  have hdvd : (2 : Nat) ^ k1 ∣ 2 ^ k2 := pow_dvd_pow 2 hkk
  have hcast : ((2 : Int) ^ k1) = (((2 : Nat) ^ k1 : Nat) : Int) := by push_cast; rfl
  rw [hcast, ← Int.natCast_mod, Nat.mod_mod_of_dvd _ hdvd]

theorem padding.Length_nested_witness :
    ∃ p1 p2 : Int, padding.Length 16 [1, 2, 3] [4, 5] = .ret p1 ∧
      padding.Length 1024 [1, 2, 3] [4, 5] = .ret p2 ∧ p1 = p2 % 16 :=
  padding.Length_nested 16 1024 4 10 [1, 2, 3] [4, 5] (by decide) (by decide) (by decide)
    (by decide) ⟨_, rfl⟩
